import Mathlib

/-!
# MindTodo — verification of the canvas / graph-state engine

Shallow embedding, in Lean 4, of the data model and the algorithms of the
MindTodo node-graph editor (a React/TypeScript application), together with
proofs about them.  Every definition is translated from the TypeScript
source:

* `src/types.ts` — the `TodoNode` / `Connection` data model;
* `src/lib/rootNode.ts` — `isRootNode`, `ROOT_TITLES`;
* `src/components/BrainMap.tsx` — `normalizeNode`, `deriveStatusFromLegacyTodos`,
  `calculateStatusSummary`, `handleWheel`, `deleteNode`, `getNodeSize`
  (the circular one), `renderConnections`;
* `src/hooks/useTouchHandlers.ts` — `isTap` of `useTouchHandlers`;
* `src/lib/nodeSize.ts` — the width/height `getNodeSize`;
* `src/components/NodeComponent.tsx` — `handleGlobalMouseUp` of the
  drag-to-place effect;
* `src/hooks/useBrainMapStorage.ts` — the load/save synchronization hook.

JavaScript numbers are modelled by `ℚ` (exact arithmetic); `Math.ceil`
becomes `Int.ceil`.  A JavaScript comparison `Math.sqrt d < c` on
non-negative arguments is embedded as the equivalent `d < c ^ 2`
(squaring is monotone on non-negative rationals), which keeps every
definition decidable/executable.  React state lives in explicit state
records, and React effects become steps of an explicit event relation.
-/

namespace MindTodo

/-! ## Data model (`src/types.ts`) -/

/-- Embedding of `NodeStatus` from `src/types.ts`: `'pending' | 'success' | 'failed'`. -/
inductive NodeStatus where
  | pending
  | success
  | failed
deriving DecidableEq, Repr

/-- A canvas-space position (`Position` in `src/types.ts`). -/
@[ext]

structure Position where
  x : ℚ
  y : ℚ
deriving DecidableEq, Repr

/-- Embedding of `TodoNode` from `src/types.ts`.  The optional `isRoot?: boolean` field is
an `Option Bool`. -/
structure TodoNode where
  id : String
  title : String
  position : Position
  status : NodeStatus
  isRoot : Option Bool
deriving DecidableEq, Repr

/-- Embedding of `Connection` from `src/types.ts`. -/
structure Connection where
  id : String
  sourceId : String
  targetId : String
deriving DecidableEq, Repr

/-- Embedding of `ROOT_TITLES` from `src/lib/rootNode.ts` (a three-element set literal,
embedded as a list). -/
def ROOT_TITLES : List String := ["My Tasks", "Work", "Personal"]

/-- Embedding of `isRootNode` from `src/lib/rootNode.ts`: an explicit boolean `isRoot`
wins; otherwise the legacy heuristic `id === 'root' || ROOT_TITLES.has
(title)` applies. -/
def isRootNode (node : TodoNode) : Bool :=
  match node.isRoot with
  | some b => b
  | none => node.id == "root" || ROOT_TITLES.contains node.title

/-! ## C10 — `deleteNode` (`src/components/BrainMap.tsx`) -/

/-- The node-set update of `deleteNode` in `BrainMap.tsx`:
`prev.filter(node => node.id !== nodeId)`. -/
def deleteNodeNodes (nodes : List TodoNode) (nodeId : String) : List TodoNode :=
  nodes.filter (fun node => node.id ≠ nodeId)

/-- The connection-set update of `deleteNode` in `BrainMap.tsx`:
`prev.filter(conn => conn.sourceId !== nodeId && conn.targetId !== nodeId)`. -/
def deleteNodeConnections (conns : List Connection) (nodeId : String) :
    List Connection :=
  conns.filter (fun conn => conn.sourceId ≠ nodeId ∧ conn.targetId ≠ nodeId)

/-! ## C5 — legacy-todos status normalization (`src/components/BrainMap.tsx`) -/

/-- Embedding of `DEFAULT_STATUS` from `BrainMap.tsx`. -/
def DEFAULT_STATUS : NodeStatus := .pending

/-- Embedding of `deriveStatusFromLegacyTodos` from `BrainMap.tsx`.  The raw `todos`
field is `Option (List Bool)`: `none` models a missing or non-array value
(the `!Array.isArray(legacyTodos)` test), and each entry is the coerced
`!!todo?.completed` flag. -/
def deriveStatusFromLegacyTodos (legacyTodos : Option (List Bool)) : NodeStatus :=
  match legacyTodos with
  | none => DEFAULT_STATUS
  | some todos =>
      if todos.length = 0 then DEFAULT_STATUS
      else if todos.all id then .success else DEFAULT_STATUS

/-- The raw `status` strings the source accepts as already valid
(`node?.status === 'success' || node?.status === 'failed' ||
node?.status === 'pending'` in `normalizeNode`). -/
def isValidRawStatus (rawStatus : Option String) : Bool :=
  rawStatus == some "success" || rawStatus == some "failed" ||
    rawStatus == some "pending"

/-- The `status` computation of `normalizeNode` in `BrainMap.tsx`: keep a
valid raw status, otherwise fall back to `deriveStatusFromLegacyTodos` on
the raw `todos` field. -/
def normalizeNodeStatus (rawStatus : Option String) (todos : Option (List Bool)) :
    NodeStatus :=
  if rawStatus = some "success" then .success
  else if rawStatus = some "failed" then .failed
  else if rawStatus = some "pending" then .pending
  else deriveStatusFromLegacyTodos todos

/-! ## C6 — tap-vs-drag classification (`src/hooks/useTouchHandlers.ts`) -/

/-- Embedding of `isTap` of `useTouchHandlers`: the refs `touchStartTimeRef` /
`touchStartPosRef` and `Date.now()` are explicit arguments.  The source
computes `duration = now - startTime` and the Euclidean distance from the
start position and returns `duration < 200 && distance < 10`; the
distance comparison `Math.sqrt(d) < 10` is embedded as `d < 10 ^ 2`. -/
def isTap (touchStartPos : Option (ℚ × ℚ)) (touchStartTime now : ℚ)
    (endX endY : ℚ) : Bool :=
  match touchStartPos with
  | none => false
  | some startPos =>
      let duration := now - touchStartTime
      let distanceSq := (endX - startPos.1) ^ 2 + (endY - startPos.2) ^ 2
      decide (duration < 200 ∧ distanceSq < 10 ^ 2)

/-! ## C7 — edge-proximity node creation: click vs drag
(`handleGlobalMouseUp` in `src/components/NodeComponent.tsx`) -/

/-- The two placement callbacks `handleGlobalMouseUp` can fire:
`onAddNodeAtAngle(currentAngleRef.current)` or
`onAddNodeAtPosition(releaseX, releaseY)`. -/
inductive PlacementAction where
  | atAngle (angle : ℚ)
  | atPosition (releaseX releaseY : ℚ)
deriving DecidableEq, Repr

/-- Embedding of `MIN_DRAG_DISTANCE` from `handleGlobalMouseUp` ("Minimum pixels to
count as a drag"). -/
def MIN_DRAG_DISTANCE : ℚ := 50

/-- The placement decision of `handleGlobalMouseUp` in
`NodeComponent.tsx`: with a recorded down position, compare the
down-to-release Euclidean distance against `MIN_DRAG_DISTANCE` (the
source's `Math.sqrt(dx*dx + dy*dy) < 50`, embedded squared) and fire the
angle-based path on a quick click, the position path on a real drag;
without a down position, fall back to the position path. -/
def handleGlobalMouseUp (dragStartPosition : Option (ℚ × ℚ))
    (releaseX releaseY : ℚ) (currentAngle : ℚ) : PlacementAction :=
  match dragStartPosition with
  | some startPos =>
      let dx := releaseX - startPos.1
      let dy := releaseY - startPos.2
      if dx * dx + dy * dy < MIN_DRAG_DISTANCE ^ 2 then
        .atAngle currentAngle
      else
        .atPosition releaseX releaseY
  | none => .atPosition releaseX releaseY

/-! ## C4 — wheel zoom keeps the point under the cursor fixed
(`handleWheel` in `src/components/BrainMap.tsx`) -/

/-- Embedding of `toCanvas`: the screen→canvas conversion used throughout
`BrainMap.tsx` (`(screen - pan) / zoom`, per axis, e.g. the
`mousePosition` computation in `handleMouseMove`). -/
def toCanvas (pan : Position) (zoom : ℚ) (screen : Position) : Position :=
  ⟨(screen.x - pan.x) / zoom, (screen.y - pan.y) / zoom⟩

/-- Embedding of `handleWheel` from `BrainMap.tsx`: `delta = deltaY < 0 ? 0.1 : -0.1`,
`newZoom = max(0.1, min(3, zoom + delta))`, and the pan is recomputed as
`(mouse - pan) * (1 - newZoom/zoom) + pan` per axis.  Returns the new pan
and the new zoom. -/
def handleWheel (zoom : ℚ) (pan : Position) (deltaY : ℚ) (mouse : Position) :
    Position × ℚ :=
  let delta : ℚ := if deltaY < 0 then 1 / 10 else -(1 / 10)
  let newZoom := max (1 / 10) (min 3 (zoom + delta))
  let scaleChange := newZoom / zoom
  let newPanX := (mouse.x - pan.x) * (1 - scaleChange) + pan.x
  let newPanY := (mouse.y - pan.y) * (1 - scaleChange) + pan.y
  (⟨newPanX, newPanY⟩, newZoom)

/-! ## C2 / C3 — status aggregation
(`calculateStatusSummary` in `src/components/BrainMap.tsx`)

The source is a depth-first traversal with a `Set` of visited ids that is
mutated in place and therefore shared by all recursive calls.  The
embedding threads that set explicitly (`List String`) and returns it next
to the summary.  The JavaScript recursion has no structural decreasing
argument, so the embedding takes an explicit fuel; the theorems below
prove that `fuelBound` fuel always suffices (the recursion terminates,
cycles included) and that the result is the same for every larger fuel. -/

/-- Embedding of `StatusSummary` from `BrainMap.tsx`. -/
structure StatusSummary where
  success : ℕ
  failed : ℕ
  pending : ℕ
  total : ℕ
deriving DecidableEq, Repr

/-- The all-zero summary `{success: 0, failed: 0, pending: 0, total: 0}`. -/
def StatusSummary.zero : StatusSummary := ⟨0, 0, 0, 0⟩

/-- Componentwise sum of summaries (the four `summary.x += childSummary.x`
statements of the source). -/
def StatusSummary.add (a b : StatusSummary) : StatusSummary :=
  ⟨a.success + b.success, a.failed + b.failed, a.pending + b.pending,
    a.total + b.total⟩

/-- Componentwise order on summaries. -/
def StatusSummary.le (a b : StatusSummary) : Prop :=
  a.success ≤ b.success ∧ a.failed ≤ b.failed ∧ a.pending ≤ b.pending ∧
    a.total ≤ b.total

/-- The contribution of a single node's own status (the
`summary.total += 1` / status-bucket increment block of the source). -/
def statusSingleton (status : NodeStatus) : StatusSummary :=
  match status with
  | .success => ⟨1, 0, 0, 1⟩
  | .failed => ⟨0, 1, 0, 1⟩
  | .pending => ⟨0, 0, 1, 1⟩

/-- The `directConnections` computation of `calculateStatusSummary`:
filter the connections touching `nodeId` and map each to its opposite
endpoint. -/
def directConnections (conns : List Connection) (nodeId : String) :
    List String :=
  (conns.filter (fun conn => conn.sourceId = nodeId ∨ conn.targetId = nodeId)).map
    (fun conn => if conn.sourceId = nodeId then conn.targetId else conn.sourceId)

mutual

/-- Embedding of `calculateStatusSummary` from `BrainMap.tsx`, with the shared mutable
`visited` set threaded explicitly and an explicit fuel: return
`{0,0,0,0}` for a node already visited, mark the node visited, return
zero if the node record is absent, otherwise start from the node's own
status singleton and add every not-yet-visited direct connection's
summary. -/
def calculateStatusSummaryFuel (nodes : List TodoNode)
    (conns : List Connection) :
    ℕ → String → List String → StatusSummary × List String
  | 0, _, visited => (StatusSummary.zero, visited)
  | fuel + 1, nodeId, visited =>
      if nodeId ∈ visited then (StatusSummary.zero, visited)
      else
        let visited' := nodeId :: visited
        match nodes.find? (fun n => n.id == nodeId) with
        | none => (StatusSummary.zero, visited')
        | some currentNode =>
            summaryChildrenFuel nodes conns fuel
              (directConnections conns nodeId)
              (statusSingleton currentNode.status) visited'

/-- The `for (const connectedNodeId of directConnections)` loop of
`calculateStatusSummary`: fold the children left to right, skipping ids
already in the (threaded) visited set and accumulating the child
summaries. -/
def summaryChildrenFuel (nodes : List TodoNode) (conns : List Connection)
    (fuel : ℕ) :
    List String → StatusSummary → List String → StatusSummary × List String
  | [], acc, visited => (acc, visited)
  | childId :: rest, acc, visited =>
      if childId ∈ visited then
        summaryChildrenFuel nodes conns fuel rest acc visited
      else
        let r := calculateStatusSummaryFuel nodes conns fuel childId visited
        summaryChildrenFuel nodes conns fuel rest (acc.add r.1) r.2

end

/-- The ids appearing as a source or target of some connection: only these
can be pushed on the visited set by the children loop. -/
def endpointIds (conns : List Connection) : Finset String :=
  (conns.map Connection.sourceId).toFinset ∪ (conns.map Connection.targetId).toFinset

/-- Fuel sufficient for `calculateStatusSummaryFuel` from a given visited
set: one more than the number of connection endpoints not yet visited. -/
def fuelBound (conns : List Connection) (visited : List String) : ℕ :=
  (endpointIds conns \ visited.toFinset).card + 1

/-- Embedding of `calculateStatusSummary(nodeId)` as called by the component (fresh
visited set, sufficient fuel). -/
def calculateStatusSummary (nodes : List TodoNode) (conns : List Connection)
    (nodeId : String) : StatusSummary :=
  (calculateStatusSummaryFuel nodes conns (fuelBound conns []) nodeId []).1

/-! ## C8 — dynamic node sizing (`getNodeSize` in `src/lib/nodeSize.ts`) -/

/-- JavaScript `String.prototype.trim()`: drop whitespace from both ends.
(Defined on the underlying character list so that it is fully
kernel-reducible.) -/
def jsTrim (s : String) : String :=
  ⟨((s.toList.dropWhile Char.isWhitespace).reverse.dropWhile
      Char.isWhitespace).reverse⟩

/-- JavaScript `split(/\s+/)` as applied to an already-trimmed string: cut
at maximal whitespace runs, producing no empty words. -/
def jsSplitWhitespace (s : String) : List String :=
  ((s.toList.splitOnP Char.isWhitespace).filter (fun w => w ≠ [])).map
    (fun w => ⟨w⟩)

/-- The JavaScript `%` operator on the positive operands used by
`getNodeSize` (`wordWidth % textAreaWidth` with both sides positive, where
truncated and floored division agree). -/
def jsMod (a b : ℚ) : ℚ := a - b * ⌊a / b⌋

/-- Embedding of `NodeSize` from `src/lib/nodeSize.ts`. -/
structure NodeSize where
  width : ℚ
  height : ℚ
deriving DecidableEq, Repr

/-- One step of the greedy line-packing loop of `getNodeSize`
(`for (const word of words) { ... }`), acting on the state
`(lineCount, currentLineWidth)`. -/
def lineCountStep (avgCharWidth textAreaWidth : ℚ) (st : ℚ × ℚ)
    (word : String) : ℚ × ℚ :=
  let wordWidth := (word.length : ℚ) * avgCharWidth
  let spaceWidth := avgCharWidth
  if textAreaWidth < wordWidth then
    let st1 : ℚ × ℚ := if 0 < st.2 then (st.1 + 1, 0) else st
    let extraLines : ℚ := (⌈wordWidth / textAreaWidth⌉ : ℤ)
    let remainder := jsMod wordWidth textAreaWidth
    (st1.1 + (extraLines - 1),
      if remainder = 0 then textAreaWidth else remainder)
  else if st.2 = 0 then (st.1, wordWidth)
  else if st.2 + spaceWidth + wordWidth ≤ textAreaWidth then
    (st.1, st.2 + spaceWidth + wordWidth)
  else (st.1 + 1, wordWidth)

/-- Embedding of `getNodeSize` from `src/lib/nodeSize.ts`: the `{width, height}` box of
a node from its root flag, its connected-neighbor count and its
(possibly overridden, while editing) title.  `words` is the JavaScript
`normalizedTitle.split(/\s+/)` (on a trimmed string this never produces
empty words), and `Math.ceil` is `Int.ceil`. -/
def getNodeSize (node : TodoNode) (connectedCount : ℕ)
    (titleOverride : Option String) : NodeSize :=
  let root := isRootNode node
  let title := titleOverride.getD node.title
  let normalizedTitle := jsTrim title
  let baseWidth : ℚ :=
    if root then max 200 (180 + (connectedCount : ℚ) * 20) else 160
  let minWidth : ℚ := if root then 200 else 184
  let maxWidth : ℚ := if root then 400 else 320
  let topPadding : ℚ := 48
  let bottomPadding : ℚ := 20
  let buttonAreaHeight : ℚ := if root then 92 else 76
  let titlePaddingY : ℚ := 20
  let editingBuffer : ℚ := if titleOverride.isSome then 12 else 0
  if normalizedTitle = "" then
    let width := max minWidth baseWidth
    let height := topPadding + 24 + titlePaddingY + buttonAreaHeight +
      bottomPadding + editingBuffer
    ⟨width, max width height⟩
  else
    let fontSize : ℚ := if root then 20 else 18
    let lineHeight := fontSize * (3 / 2)
    let avgCharWidth := fontSize * (13 / 25)
    let words := jsSplitWhitespace normalizedTitle
    let longestWord : ℕ := words.foldl (fun m w => max m w.length) 0
    let totalLength : ℕ := normalizedTitle.length
    let wordCount := words.length
    let longestWordWidth := (longestWord : ℚ) * avgCharWidth
    let minWidthForWord : ℚ :=
      ((⌈longestWordWidth / (3 / 4)⌉ : ℤ) : ℚ) + 48
    let targetWidth0 : ℚ :=
      if wordCount ≤ 2 ∧ totalLength ≤ 16 then
        let singleLineWidth := (totalLength : ℚ) * avgCharWidth
        max baseWidth (((⌈singleLineWidth / (3 / 4)⌉ : ℤ) : ℚ) + 48)
      else
        let idealCharsPerLine : ℚ := 12
        let estimatedLines : ℚ :=
          ((⌈(totalLength : ℚ) / idealCharsPerLine⌉ : ℤ) : ℚ)
        let charsPerLine : ℚ :=
          ((⌈(totalLength : ℚ) / min estimatedLines 3⌉ : ℤ) : ℚ)
        let lineWidthCalc := charsPerLine * avgCharWidth
        max baseWidth (((⌈lineWidthCalc / (3 / 4)⌉ : ℤ) : ℚ) + 48)
    let targetWidth := max targetWidth0 minWidthForWord
    let finalWidth := max minWidth (min maxWidth targetWidth)
    let containerPaddingX : ℚ := 32
    let titleMaxWidthFrac : ℚ :=
      if titleOverride.isSome then 3 / 4 else if root then 17 / 20 else 4 / 5
    let titleInnerPaddingX : ℚ := if titleOverride.isSome then 24 else 0
    let textAreaWidth :=
      max 40 ((finalWidth - containerPaddingX) * titleMaxWidthFrac -
        titleInnerPaddingX)
    let lineCount :=
      (words.foldl (lineCountStep avgCharWidth textAreaWidth) (1, 0)).1
    let titleHeight := lineCount * lineHeight
    let totalHeight := topPadding + titleHeight + titlePaddingY +
      buttonAreaHeight + bottomPadding + editingBuffer
    let minHeight : ℚ := if root then 160 else 150
    let finalHeight := max minHeight (((⌈totalHeight⌉ : ℤ) : ℚ) + 12)
    ⟨finalWidth, finalHeight⟩

/-! ## C9 — connection endpoints and the zero-distance division
(`renderConnections` in `src/components/BrainMap.tsx`) -/

/-- Embedding of `getNodeSize` from `BrainMap.tsx` (the circular, single-number
variant used by `renderConnections`): a root-dependent base size plus
title-length boosts, capped at 420. -/
def getNodeSizeBrainMap (node : TodoNode) (connectedCount : ℕ) : ℚ :=
  let baseSize : ℚ :=
    if isRootNode node then max 220 (200 + (connectedCount : ℚ) * 22)
    else 140
  let normalizedTitle := jsTrim node.title
  let totalLength : ℕ := normalizedTitle.length
  let longestWord : ℕ :=
    (jsSplitWhitespace normalizedTitle).foldl (fun m w => max m w.length) 0
  let lengthBoost : ℚ := max ((totalLength : ℚ) - 18) 0 * (5 / 2)
  let wordBoost : ℚ := max ((longestWord : ℚ) - 12) 0 * 6
  let combinedBoost : ℚ := min 220 (lengthBoost + wordBoost)
  min 420 (baseSize + combinedBoost)

/-- The `connectedCount` computations of `renderConnections`: the number
of connections having the node as an endpoint. -/
def connectedCountOf (conns : List Connection) (nodeId : String) : ℕ :=
  (conns.filter (fun c => c.sourceId = nodeId ∨ c.targetId = nodeId)).length

/-- Whether `renderConnections` draws a connection: the source returns
`null` (skips the draw) exactly when the source node or the target node
is missing — this is its *only* skip condition. -/
def connectionDrawn (nodes : List TodoNode) (conn : Connection) : Bool :=
  (nodes.find? (fun n => n.id == conn.sourceId)).isSome &&
    (nodes.find? (fun n => n.id == conn.targetId)).isSome

/-- The squared distance between the two node centers computed by
`renderConnections` (the value whose square root is the `distance` that
the source divides by when placing the line endpoints
`start + (dx / distance) * sourceRadius`, etc.). -/
def connectionCenterDistanceSq (nodes : List TodoNode)
    (conns : List Connection) (conn : Connection) : ℚ :=
  match nodes.find? (fun n => n.id == conn.sourceId),
      nodes.find? (fun n => n.id == conn.targetId) with
  | some sourceNode, some targetNode =>
      let sourceSize :=
        getNodeSizeBrainMap sourceNode (connectedCountOf conns sourceNode.id)
      let targetSize :=
        getNodeSizeBrainMap targetNode (connectedCountOf conns targetNode.id)
      let startX := sourceNode.position.x + sourceSize / 2
      let startY := sourceNode.position.y + sourceSize / 2
      let endX := targetNode.position.x + targetSize / 2
      let endY := targetNode.position.y + targetSize / 2
      let dx := endX - startX
      let dy := endY - startY
      dx * dx + dy * dy
  | _, _ => 0

/-! ## C1 — the Sync Controller's hydration guard
(`useBrainMapStorage` in `src/hooks/useBrainMapStorage.ts`)

The hook consists of three effects: one that clears the `hydrated` flag
when the storage keys (i.e. the map id) change, one that hydrates from
the store and then sets the flag, and one that writes the in-memory
nodes/connections back to the store — guarded by `if (!hydrated) return`.
Each effect is modelled as one atomic event on an explicit state; a trace
is a list of events.  `localStorage` is an association list keyed by map
id (the `brainmap-<id>-nodes` / `-connections` key pair), holding the
parsed JSON values: raw node records for the nodes entry, connections
for the connections entry.  Absent keys are missing entries (an
unparsable entry follows the same synthesized-root path as an absent
one and is not modelled separately). -/

/-- A raw persisted node record, as consumed by `normalizeNode` in
`BrainMap.tsx`: every field may be missing or (for `position`) invalid. -/
structure RawNode where
  id : Option String
  title : Option String
  position : Option Position
  status : Option String
  todos : Option (List Bool)
  isRoot : Option Bool
deriving DecidableEq, Repr

/-- Embedding of `normalizeNode` from `BrainMap.tsx`: fill in defaults for every
missing field (`nowId` stands for the `Date.now().toString()` fallback
id) and normalize the status via the legacy-todos rules. -/
def normalizeNode (nowId : String) (node : RawNode) : TodoNode :=
  { id := node.id.getD nowId
    title := node.title.getD "Untitled"
    position := node.position.getD ⟨0, 0⟩
    status := normalizeNodeStatus node.status node.todos
    isRoot := some (match node.isRoot with
      | some b => b
      | none =>
          node.id == some "root" ||
            (match node.title with
              | some t => ROOT_TITLES.contains t
              | none => false)) }

/-- Embedding of `normalizeNodes` from `BrainMap.tsx`: normalize every record and, if
none is flagged root, promote the first node in load order. -/
def normalizeNodes (nowId : String) (rawNodes : List RawNode) :
    List TodoNode :=
  let normalized := rawNodes.map (normalizeNode nowId)
  if normalized.any (fun n => n.isRoot == some true) then normalized
  else
    match normalized with
    | [] => []
    | first :: rest => { first with isRoot := some true } :: rest

/-- Serialization of an in-memory node back to a raw record
(`JSON.stringify`): every present field round-trips. -/
def nodeToRaw (n : TodoNode) : RawNode :=
  { id := some n.id
    title := some n.title
    position := some n.position
    status := some (match n.status with
      | .pending => "pending"
      | .success => "success"
      | .failed => "failed")
    todos := none
    isRoot := n.isRoot }

/-- Lookup in the association-list store. -/
def storeGet {α : Type} (store : List (String × α)) (key : String) :
    Option α :=
  (store.find? (fun kv => kv.1 == key)).map Prod.snd

/-- Update (`localStorage.setItem`) in the association-list store. -/
def storeSet {α : Type} (store : List (String × α)) (key : String)
    (value : α) : List (String × α) :=
  (key, value) :: store.filter (fun kv => kv.1 ≠ key)

/-- The state seen by `useBrainMapStorage`: the current map id, the
hydration flag, the in-memory graph, and the persisted store (node
entries and connection entries, keyed by map id). -/
structure SyncState where
  mapId : String
  hydrated : Bool
  nodes : List TodoNode
  connections : List Connection
  storeNodes : List (String × List RawNode)
  storeConns : List (String × List Connection)
deriving DecidableEq, Repr

/-- The events of the Sync Controller.  `switchMap` is the effect on
`[nodesKey, connectionsKey]` that runs exactly when the map id changes
and clears the flag (`setHydrated(false)`).  `hydrate` is the load
effect: `nowId` is the `Date.now()` id and `freshRoot` the node
`createRootNode` would synthesize.  `mutate` is any graph mutation by
the component.  `save` is the persist effect with its
`if (!hydrated) return` guard. -/
inductive SyncEvent where
  | switchMap (newId : String)
  | hydrate (nowId : String) (freshRoot : TodoNode)
  | mutate (nodes : List TodoNode) (conns : List Connection)
  | save
deriving DecidableEq, Repr

/-- One effect of `useBrainMapStorage` as an atomic state transition:

* `switchMap`: `setHydrated(false)` and the new key pair;
* `hydrate`: read `nodes(M)` — parse + `normalizeNodes`, falling back to
  the synthesized root when absent or empty — read `connections(M)` if
  present, then `setHydrated(true)`;
* `mutate`: replace the in-memory graph;
* `save`: `if (!hydrated) return;` — otherwise write the node list (only
  when non-empty) and the connection list under the current id's keys. -/
def applyEvent (s : SyncState) : SyncEvent → SyncState
  | .switchMap newId => { s with mapId := newId, hydrated := false }
  | .hydrate nowId freshRoot =>
      let nodes :=
        match storeGet s.storeNodes s.mapId with
        | some rawNodes =>
            let normalized := normalizeNodes nowId rawNodes
            if normalized.length > 0 then normalized else [freshRoot]
        | none => [freshRoot]
      let conns :=
        match storeGet s.storeConns s.mapId with
        | some parsed => parsed
        | none => s.connections
      { s with nodes := nodes, connections := conns, hydrated := true }
  | .mutate nodes conns => { s with nodes := nodes, connections := conns }
  | .save =>
      if s.hydrated then
        { s with
          storeNodes :=
            if s.nodes.length > 0 then
              storeSet s.storeNodes s.mapId (s.nodes.map nodeToRaw)
            else s.storeNodes
          storeConns := storeSet s.storeConns s.mapId s.connections }
      else s

/-- Run a trace of events. -/
def runEvents (s : SyncState) (events : List SyncEvent) : SyncState :=
  events.foldl applyEvent s

/-- Whether a trace contains a completed hydration after its last map-id
switch (`true` exactly when the hydration for the *current* identifier
has completed). -/
def hydratedSinceSwitch (init : Bool) (events : List SyncEvent) : Bool :=
  events.foldl
    (fun b e =>
      match e with
      | .switchMap _ => false
      | .hydrate _ _ => true
      | .mutate _ _ => b
      | .save => b)
    init

/-! ## Theorems -/

/-- C10: `deleteNode(id)` keeps a node record exactly when its id differs
from the deleted one, keeps a connection exactly when neither endpoint is
the deleted id, preserves the order and the full record (position, title,
status, isRoot) of every survivor (they appear as an order-preserving
sublist of the input), and consequently never leaves a connection
referencing the deleted node. -/
theorem deleteNode_removes_node_and_incident_connections
    (nodes : List TodoNode) (conns : List Connection) (nodeId : String) :
    (∀ n, n ∈ deleteNodeNodes nodes nodeId ↔ n ∈ nodes ∧ n.id ≠ nodeId) ∧
    (∀ c, c ∈ deleteNodeConnections conns nodeId ↔
        c ∈ conns ∧ c.sourceId ≠ nodeId ∧ c.targetId ≠ nodeId) ∧
    List.Sublist (deleteNodeNodes nodes nodeId) nodes ∧
    List.Sublist (deleteNodeConnections conns nodeId) conns ∧
    (∀ c ∈ deleteNodeConnections conns nodeId,
        c.sourceId ≠ nodeId ∧ c.targetId ≠ nodeId) := by
  refine ⟨?_, ?_, ?_, ?_, ?_⟩
  · intro n
    simp [deleteNodeNodes, List.mem_filter]
  · intro c
    simp [deleteNodeConnections, List.mem_filter]
  · exact List.filter_sublist _
  · exact List.filter_sublist _
  · intro c hc
    have := (List.mem_filter.mp hc).2
    simpa [deleteNodeConnections] using this

/-- C5: a loaded node record without a valid `status` field but with a
legacy `todos` collection normalizes to `success` exactly when the list is
non-empty and every item is completed, and to `pending` otherwise; without
a `todos` collection, any invalid or missing `status` normalizes to
`pending`. -/
theorem normalizeNode_legacy_todos_migration
    (rawStatus : Option String) (todos : List Bool)
    (hinvalid : isValidRawStatus rawStatus = false) :
    (normalizeNodeStatus rawStatus (some todos) = .success ↔
      todos ≠ [] ∧ todos.all id = true) ∧
    (¬ (todos ≠ [] ∧ todos.all id = true) →
      normalizeNodeStatus rawStatus (some todos) = .pending) ∧
    normalizeNodeStatus rawStatus none = .pending := by
  have h1 : rawStatus ≠ some "success" := by
    intro h; subst h; simp [isValidRawStatus] at hinvalid
  have h2 : rawStatus ≠ some "failed" := by
    intro h; subst h; simp [isValidRawStatus] at hinvalid
  have h3 : rawStatus ≠ some "pending" := by
    intro h; subst h; simp [isValidRawStatus] at hinvalid
  refine ⟨?_, ?_, ?_⟩
  · simp only [normalizeNodeStatus, if_neg h1, if_neg h2, if_neg h3,
      deriveStatusFromLegacyTodos, DEFAULT_STATUS]
    constructor
    · intro h
      by_cases hlen : todos.length = 0
      · simp [hlen] at h
      · by_cases hall : todos.all id
        · exact ⟨by simpa using List.length_pos.mp (Nat.pos_of_ne_zero hlen), hall⟩
        · simp [hlen, hall] at h
    · rintro ⟨hne, hall⟩
      have hlen : todos.length ≠ 0 := by simpa using hne
      simp [hlen, hall]
  · intro h
    simp only [normalizeNodeStatus, if_neg h1, if_neg h2, if_neg h3,
      deriveStatusFromLegacyTodos, DEFAULT_STATUS]
    by_cases hlen : todos.length = 0
    · simp [hlen]
    · by_cases hall : todos.all id
      · exact absurd ⟨by simpa using List.length_pos.mp (Nat.pos_of_ne_zero hlen),
          hall⟩ h
      · simp [hlen, hall]
  · simp [normalizeNodeStatus, if_neg h1, if_neg h2, if_neg h3,
      deriveStatusFromLegacyTodos, DEFAULT_STATUS]

/-- Witness for C5 at concrete inputs: a record with no `status` and
`todos: [{completed:true},{completed:true}]` normalizes to `success`
(the migration scenario), and the same record with one incomplete item
normalizes to `pending`. -/
theorem normalizeNode_legacy_todos_migration_witness :
    isValidRawStatus none = false ∧
    normalizeNodeStatus none (some [true, true]) = .success ∧
    normalizeNodeStatus none (some [true, false]) = .pending := by
  refine ⟨by decide, ?_, ?_⟩
  · have h := normalizeNode_legacy_todos_migration none [true, true] (by decide)
    exact h.1.mpr (by decide)
  · have h := normalizeNode_legacy_todos_migration none [true, false] (by decide)
    exact h.2.1 (by decide)

/-- C6: with a recorded start position, a release is classified as a tap
iff it comes less than 200 ms after the start and less than 10 px
(Euclidean) away from it; in particular 150 ms with 3 px movement is a
tap, 150 ms with 40 px movement is not, and 300 ms with 2 px movement is
not. -/
theorem isTap_iff_within_200ms_and_10px
    (x0 y0 t0 now endX endY : ℚ) :
    (isTap (some (x0, y0)) t0 now endX endY = true ↔
      now - t0 < 200 ∧ (endX - x0) ^ 2 + (endY - y0) ^ 2 < 10 ^ 2) ∧
    isTap (some (100, 100)) 0 150 103 100 = true ∧
    isTap (some (100, 100)) 0 150 140 100 = false ∧
    isTap (some (100, 100)) 0 300 102 100 = false := by
  refine ⟨?_, ?_, ?_, ?_⟩
  · simp [isTap]
  · norm_num [isTap]
  · norm_num [isTap]
  · norm_num [isTap]

/-- C7: with a recorded down position, the release fires the angle-based
placement (with the last recorded angle) exactly when the release is
strictly closer than 50 px to the down position, and the
release-position placement exactly otherwise — so exactly one of the two
paths fires per release. -/
theorem handleGlobalMouseUp_click_vs_drag
    (sx sy releaseX releaseY currentAngle : ℚ) :
    (handleGlobalMouseUp (some (sx, sy)) releaseX releaseY currentAngle =
        .atAngle currentAngle ↔
      (releaseX - sx) ^ 2 + (releaseY - sy) ^ 2 < 50 ^ 2) ∧
    (handleGlobalMouseUp (some (sx, sy)) releaseX releaseY currentAngle =
        .atPosition releaseX releaseY ↔
      ¬ ((releaseX - sx) ^ 2 + (releaseY - sy) ^ 2 < 50 ^ 2)) ∧
    ¬ (handleGlobalMouseUp (some (sx, sy)) releaseX releaseY currentAngle =
          .atAngle currentAngle ∧
        handleGlobalMouseUp (some (sx, sy)) releaseX releaseY currentAngle =
          .atPosition releaseX releaseY) := by
  have hsq : ∀ a : ℚ, a * a = a ^ 2 := fun a => (sq a).symm
  constructor
  · simp only [handleGlobalMouseUp, MIN_DRAG_DISTANCE, hsq]
    split <;> simp_all
  constructor
  · simp only [handleGlobalMouseUp, MIN_DRAG_DISTANCE, hsq]
    split <;> simp_all
  · rintro ⟨h1, h2⟩
    rw [h1] at h2
    exact PlacementAction.noConfusion h2

/-- C4: for any viewport with `zoom ∈ [0.1, 3]`, a wheel-zoom step
anchored at the mouse point leaves the canvas point under the mouse
unchanged: converting the anchor through the new pan/zoom gives the same
canvas point as through the old pan/zoom (exactly, in exact rational
arithmetic). -/
theorem handleWheel_zoom_anchor_invariant
    (zoom : ℚ) (pan : Position) (deltaY : ℚ) (mouse : Position)
    (hlo : 1 / 10 ≤ zoom) (hhi : zoom ≤ 3) :
    toCanvas (handleWheel zoom pan deltaY mouse).1
        (handleWheel zoom pan deltaY mouse).2 mouse =
      toCanvas pan zoom mouse := by
  have hz : zoom ≠ 0 := by positivity
  have hnzlo : (1 / 10 : ℚ) ≤ max (1 / 10) (min 3 (zoom + if deltaY < 0 then 1 / 10 else -(1 / 10))) :=
    le_max_left _ _
  have hnz : max (1 / 10) (min 3 (zoom + if deltaY < 0 then 1 / 10 else -(1 / 10))) ≠ 0 := by
    positivity
  simp only [handleWheel, toCanvas]
  apply Position.ext <;>
  · field_simp
    ring

/-- Witness for C4 at a concrete viewport: zoom 1, pan (3, 4), scroll up,
mouse at (100, 50). -/
theorem handleWheel_zoom_anchor_invariant_witness :
    toCanvas (handleWheel 1 ⟨3, 4⟩ (-1) ⟨100, 50⟩).1
        (handleWheel 1 ⟨3, 4⟩ (-1) ⟨100, 50⟩).2 ⟨100, 50⟩ =
      toCanvas ⟨3, 4⟩ 1 ⟨100, 50⟩ :=
  handleWheel_zoom_anchor_invariant 1 ⟨3, 4⟩ (-1) ⟨100, 50⟩ (by norm_num)
    (by norm_num)

/-- The visited set only grows: both traversal functions return a visited
list extending the one they were given. -/
theorem calcSummary_visited_mono (nodes : List TodoNode)
    (conns : List Connection) :
    ∀ fuel : ℕ,
      (∀ (nodeId : String) (v : List String),
        v ⊆ (calculateStatusSummaryFuel nodes conns fuel nodeId v).2) ∧
      (∀ (l : List String) (acc : StatusSummary) (v : List String),
        v ⊆ (summaryChildrenFuel nodes conns fuel l acc v).2) := by
  have children : ∀ fuel : ℕ,
      (∀ (nodeId : String) (v : List String),
        v ⊆ (calculateStatusSummaryFuel nodes conns fuel nodeId v).2) →
      ∀ (l : List String) (acc : StatusSummary) (v : List String),
        v ⊆ (summaryChildrenFuel nodes conns fuel l acc v).2 := by
    intro fuel hP l
    induction l with
    | nil => intro acc v; simp [summaryChildrenFuel]
    | cons c rest ih =>
        intro acc v
        by_cases hc : c ∈ v
        · simpa [summaryChildrenFuel, hc] using ih acc v
        · have h1 : v ⊆ (calculateStatusSummaryFuel nodes conns fuel c v).2 :=
            hP c v
          have h2 := ih
            (acc.add (calculateStatusSummaryFuel nodes conns fuel c v).1)
            (calculateStatusSummaryFuel nodes conns fuel c v).2
          simpa [summaryChildrenFuel, hc] using h1.trans h2
  intro fuel
  induction fuel with
  | zero =>
      refine ⟨fun nodeId v => by simp [calculateStatusSummaryFuel], ?_⟩
      exact children 0 (fun nodeId v => by simp [calculateStatusSummaryFuel])
  | succ n ih =>
      have hP : ∀ (nodeId : String) (v : List String),
          v ⊆ (calculateStatusSummaryFuel nodes conns (n + 1) nodeId v).2 := by
        intro nodeId v
        by_cases hv : nodeId ∈ v
        · simp [calculateStatusSummaryFuel, hv]
        · cases hfind : nodes.find? (fun n => n.id == nodeId) with
          | none =>
              simp [calculateStatusSummaryFuel, hv, hfind,
                List.subset_cons_of_subset, List.Subset.refl]
          | some currentNode =>
              have hsub : v ⊆ nodeId :: v := List.subset_cons_self _ _
              have := (ih.2) (directConnections conns nodeId)
                (statusSingleton currentNode.status) (nodeId :: v)
              simpa [calculateStatusSummaryFuel, hv, hfind] using hsub.trans this
      exact ⟨hP, children (n + 1) hP⟩

/-- A larger visited set needs no more fuel. -/
theorem fuelBound_mono (conns : List Connection) {v v' : List String}
    (h : v ⊆ v') : fuelBound conns v' ≤ fuelBound conns v := by
  unfold fuelBound
  have : endpointIds conns \ v'.toFinset ⊆ endpointIds conns \ v.toFinset := by
    apply Finset.sdiff_subset_sdiff (le_refl _)
    intro x hx
    simpa [List.mem_toFinset] using h (by simpa [List.mem_toFinset] using hx)
  exact Nat.add_le_add_right (Finset.card_le_card this) 1

/-- Visiting an endpoint id strictly shrinks the fuel bound. -/
theorem fuelBound_cons_lt (conns : List Connection) {nodeId : String}
    {v : List String} (hmem : nodeId ∈ endpointIds conns) (hv : nodeId ∉ v) :
    fuelBound conns (nodeId :: v) < fuelBound conns v := by
  unfold fuelBound
  apply Nat.add_lt_add_right
  have hins : (nodeId :: v).toFinset = insert nodeId v.toFinset := by
    simp [List.toFinset_cons]
  rw [hins, Finset.sdiff_insert]
  exact Finset.card_erase_lt_of_mem
    (Finset.mem_sdiff.mpr ⟨hmem, by simpa [List.mem_toFinset] using hv⟩)

/-- A node with at least one direct connection is a connection endpoint. -/
theorem mem_endpointIds_of_directConnections_ne_nil
    (conns : List Connection) (nodeId : String)
    (h : directConnections conns nodeId ≠ []) :
    nodeId ∈ endpointIds conns := by
  unfold directConnections at h
  rcases List.exists_mem_of_ne_nil _ h with ⟨c, hc⟩
  rcases List.mem_map.mp hc with ⟨conn, hconn, -⟩
  have hmem := (List.mem_filter.mp hconn).1
  have hprop := of_decide_eq_true (List.mem_filter.mp hconn).2
  unfold endpointIds
  rcases hprop with hsrc | htgt
  · exact Finset.mem_union_left _ (by
      simp only [List.mem_toFinset, List.mem_map]
      exact ⟨conn, hmem, hsrc⟩)
  · exact Finset.mem_union_right _ (by
      simp only [List.mem_toFinset, List.mem_map]
      exact ⟨conn, hmem, htgt⟩)

/-- Fuel stabilization: any two fuels at least `fuelBound` give the same
result, for the node traversal and for the children loop alike.  This is
the termination argument of the source: the depth of the recursion is
bounded by the number of connection endpoints not yet visited. -/
theorem calcSummary_fuel_stable (nodes : List TodoNode)
    (conns : List Connection) :
    ∀ fuel : ℕ,
      (∀ (nodeId : String) (v : List String) (f' : ℕ),
        fuelBound conns v ≤ fuel → fuelBound conns v ≤ f' →
        calculateStatusSummaryFuel nodes conns fuel nodeId v =
          calculateStatusSummaryFuel nodes conns f' nodeId v) ∧
      (∀ (l : List String) (acc : StatusSummary) (v : List String) (f' : ℕ),
        fuelBound conns v ≤ fuel → fuelBound conns v ≤ f' →
        summaryChildrenFuel nodes conns fuel l acc v =
          summaryChildrenFuel nodes conns f' l acc v) := by
  have children : ∀ fuel : ℕ,
      (∀ (nodeId : String) (v : List String) (f' : ℕ),
        fuelBound conns v ≤ fuel → fuelBound conns v ≤ f' →
        calculateStatusSummaryFuel nodes conns fuel nodeId v =
          calculateStatusSummaryFuel nodes conns f' nodeId v) →
      ∀ (l : List String) (acc : StatusSummary) (v : List String) (f' : ℕ),
        fuelBound conns v ≤ fuel → fuelBound conns v ≤ f' →
        summaryChildrenFuel nodes conns fuel l acc v =
          summaryChildrenFuel nodes conns f' l acc v := by
    intro fuel hP l
    induction l with
    | nil => intro acc v f' h1 h2; simp [summaryChildrenFuel]
    | cons c rest ih =>
        intro acc v f' h1 h2
        by_cases hc : c ∈ v
        · simpa [summaryChildrenFuel, hc] using ih acc v f' h1 h2
        · have hcalc := hP c v f' h1 h2
          have hsub : v ⊆ (calculateStatusSummaryFuel nodes conns fuel c v).2 :=
            (calcSummary_visited_mono nodes conns fuel).1 c v
          have hb := fuelBound_mono conns hsub
          have hrest := ih
            (acc.add (calculateStatusSummaryFuel nodes conns fuel c v).1)
            (calculateStatusSummaryFuel nodes conns fuel c v).2 f'
            (hb.trans h1) (hb.trans h2)
          simp only [summaryChildrenFuel, if_neg hc]
          rw [← hcalc, hrest]
  intro fuel
  induction fuel using Nat.strong_induction_on with
  | _ fuel ihs =>
      have hP : ∀ (nodeId : String) (v : List String) (f' : ℕ),
          fuelBound conns v ≤ fuel → fuelBound conns v ≤ f' →
          calculateStatusSummaryFuel nodes conns fuel nodeId v =
            calculateStatusSummaryFuel nodes conns f' nodeId v := by
        intro nodeId v f' h1 h2
        have hb1 : 1 ≤ fuelBound conns v := Nat.le_add_left 1 _
        obtain ⟨m, rfl⟩ : ∃ m, fuel = m + 1 := by
          cases fuel with
          | zero => omega
          | succ m => exact ⟨m, rfl⟩
        obtain ⟨k, rfl⟩ : ∃ k, f' = k + 1 := by
          cases f' with
          | zero => omega
          | succ k => exact ⟨k, rfl⟩
        by_cases hv : nodeId ∈ v
        · simp [calculateStatusSummaryFuel, hv]
        · cases hfind : nodes.find? (fun n => n.id == nodeId) with
          | none => simp [calculateStatusSummaryFuel, hv, hfind]
          | some currentNode =>
              simp only [calculateStatusSummaryFuel, if_neg hv, hfind]
              cases hdc : directConnections conns nodeId with
              | nil => simp [summaryChildrenFuel]
              | cons c rest =>
                  have hne : directConnections conns nodeId ≠ [] := by
                    simp [hdc]
                  have hend :=
                    mem_endpointIds_of_directConnections_ne_nil conns nodeId hne
                  have hlt := fuelBound_cons_lt conns hend hv
                  have hm : fuelBound conns (nodeId :: v) ≤ m := by omega
                  have hk : fuelBound conns (nodeId :: v) ≤ k := by omega
                  have hQm := children m (fun a b c h1' h2' =>
                    (ihs m (by omega)).1 a b c h1' h2')
                  exact hQm (c :: rest) (statusSingleton currentNode.status)
                    (nodeId :: v) k hm hk
      exact ⟨hP, children fuel hP⟩

/-- The children loop only adds to its accumulator: the result dominates
the accumulator componentwise. -/
theorem summaryChildren_le_result (nodes : List TodoNode)
    (conns : List Connection) (fuel : ℕ) :
    ∀ (l : List String) (acc : StatusSummary) (v : List String),
      StatusSummary.le acc (summaryChildrenFuel nodes conns fuel l acc v).1 := by
  intro l
  induction l with
  | nil =>
      intro acc v
      simp [summaryChildrenFuel, StatusSummary.le]
  | cons c rest ih =>
      intro acc v
      by_cases hc : c ∈ v
      · simpa [summaryChildrenFuel, hc] using ih acc v
      · have hstep : StatusSummary.le acc
            (acc.add (calculateStatusSummaryFuel nodes conns fuel c v).1) := by
          refine ⟨Nat.le_add_right _ _, Nat.le_add_right _ _,
            Nat.le_add_right _ _, Nat.le_add_right _ _⟩
        have hrest := ih
          (acc.add (calculateStatusSummaryFuel nodes conns fuel c v).1)
          (calculateStatusSummaryFuel nodes conns fuel c v).2
        simp only [summaryChildrenFuel, if_neg hc]
        exact ⟨hstep.1.trans hrest.1, hstep.2.1.trans hrest.2.1,
          hstep.2.2.1.trans hrest.2.2.1, hstep.2.2.2.trans hrest.2.2.2⟩

/-- C3: the aggregation is defensive against cycles and terminates on
every graph: (a) a node already on the visited set immediately yields the
empty summary `{0,0,0,0}` whatever the remaining fuel, and (b) the
recursion stabilizes — every fuel at least `fuelBound` (one more than the
number of connection endpoints) returns exactly
`calculateStatusSummary`, so the result is a fixed finite summary and
re-running the aggregation on the unchanged graph reproduces it. -/
theorem calculateStatusSummary_cycle_safe_and_terminates
    (nodes : List TodoNode) (conns : List Connection) (nodeId : String) :
    (∀ (fuel : ℕ) (visited : List String), nodeId ∈ visited →
      calculateStatusSummaryFuel nodes conns (fuel + 1) nodeId visited =
        (StatusSummary.zero, visited)) ∧
    (∀ fuel : ℕ, fuelBound conns [] ≤ fuel →
      (calculateStatusSummaryFuel nodes conns fuel nodeId []).1 =
        calculateStatusSummary nodes conns nodeId) := by
  constructor
  · intro fuel visited hmem
    simp [calculateStatusSummaryFuel, hmem]
  · intro fuel hfuel
    have := (calcSummary_fuel_stable nodes conns fuel).1 nodeId []
      (fuelBound conns []) hfuel (le_refl _)
    unfold calculateStatusSummary
    rw [this]

/-- Witness for C3 on a concrete three-node cycle A–B–C–A: a revisited
node yields `{0,0,0,0}`, and fuel 10 (well above the bound 4) gives the
stable summary, which counts each of the three statuses once. -/
theorem calculateStatusSummary_cycle_safe_witness :
    calculateStatusSummaryFuel
        [⟨"A", "a", ⟨0, 0⟩, .pending, some true⟩,
          ⟨"B", "b", ⟨1, 0⟩, .success, some false⟩,
          ⟨"C", "c", ⟨0, 1⟩, .failed, some false⟩]
        [⟨"A-B", "A", "B"⟩, ⟨"B-C", "B", "C"⟩, ⟨"C-A", "C", "A"⟩]
        (5 + 1) "A" ["A"] = (StatusSummary.zero, ["A"]) ∧
    (calculateStatusSummaryFuel
        [⟨"A", "a", ⟨0, 0⟩, .pending, some true⟩,
          ⟨"B", "b", ⟨1, 0⟩, .success, some false⟩,
          ⟨"C", "c", ⟨0, 1⟩, .failed, some false⟩]
        [⟨"A-B", "A", "B"⟩, ⟨"B-C", "B", "C"⟩, ⟨"C-A", "C", "A"⟩]
        10 "A" []).1 =
      calculateStatusSummary
        [⟨"A", "a", ⟨0, 0⟩, .pending, some true⟩,
          ⟨"B", "b", ⟨1, 0⟩, .success, some false⟩,
          ⟨"C", "c", ⟨0, 1⟩, .failed, some false⟩]
        [⟨"A-B", "A", "B"⟩, ⟨"B-C", "B", "C"⟩, ⟨"C-A", "C", "A"⟩] "A" := by
  have h := calculateStatusSummary_cycle_safe_and_terminates
    [⟨"A", "a", ⟨0, 0⟩, .pending, some true⟩,
      ⟨"B", "b", ⟨1, 0⟩, .success, some false⟩,
      ⟨"C", "c", ⟨0, 1⟩, .failed, some false⟩]
    [⟨"A-B", "A", "B"⟩, ⟨"B-C", "B", "C"⟩, ⟨"C-A", "C", "A"⟩] "A"
  exact ⟨h.1 5 ["A"] (by decide), h.2 10 (by decide)⟩

/-- C2 counterexample: in the two-node graph `A (success) → B (pending)`,
the node `A` is internal (it has the child `B`).  The claim predicts that
`A`'s summary is only the sum of its children's summaries — the singleton
`{success: 0, failed: 0, pending: 1, total: 1}` of `B` — but
`calculateStatusSummary` also counts `A`'s own `success`, returning
`{success: 1, failed: 0, pending: 1, total: 2}`. -/
theorem calculateStatusSummary_internal_counts_self_counterexample :
    calculateStatusSummary
        [⟨"A", "a", ⟨0, 0⟩, .success, some true⟩,
          ⟨"B", "b", ⟨1, 0⟩, .pending, some false⟩]
        [⟨"A-B", "A", "B"⟩] "A" =
      ⟨1, 0, 1, 2⟩ ∧
    calculateStatusSummary
        [⟨"A", "a", ⟨0, 0⟩, .success, some true⟩,
          ⟨"B", "b", ⟨1, 0⟩, .pending, some false⟩]
        [⟨"A-B", "A", "B"⟩] "A" ≠
      ⟨0, 0, 1, 1⟩ := by
  have hb : fuelBound [⟨"A-B", "A", "B"⟩] ([] : List String) = 3 := by decide
  constructor
  · unfold calculateStatusSummary
    rw [hb]
    norm_num [calculateStatusSummaryFuel, summaryChildrenFuel,
      directConnections, statusSingleton, StatusSummary.zero,
      StatusSummary.add, List.find?]
    decide
  · unfold calculateStatusSummary
    rw [hb]
    norm_num [calculateStatusSummaryFuel, summaryChildrenFuel,
      directConnections, statusSingleton, StatusSummary.zero,
      StatusSummary.add, List.find?]
    decide

/-- C2 as amended: a leaf node (one with no direct connections) whose
record exists yields exactly the singleton of its own status — but an
internal node's summary also contains its own status: for every existing
node, its own status singleton is dominated componentwise by the
aggregated summary (so internal nodes contribute their own status *in
addition to* their children's summaries; the root display subtracts the
root's own status separately, in `NodeComponent`'s `summaryWithoutSelf`). -/
theorem calculateStatusSummary_leaf_singleton_and_self_counted
    (nodes : List TodoNode) (conns : List Connection) (nodeId : String)
    (node : TodoNode)
    (hfind : nodes.find? (fun n => n.id == nodeId) = some node) :
    (directConnections conns nodeId = [] →
      calculateStatusSummary nodes conns nodeId =
        statusSingleton node.status) ∧
    StatusSummary.le (statusSingleton node.status)
      (calculateStatusSummary nodes conns nodeId) := by
  obtain ⟨m, hm⟩ : ∃ m, fuelBound conns [] = m + 1 :=
    ⟨(endpointIds conns \ ([] : List String).toFinset).card, rfl⟩
  have hnotmem : nodeId ∉ ([] : List String) := List.not_mem_nil nodeId
  have hunfold : calculateStatusSummary nodes conns nodeId =
      (summaryChildrenFuel nodes conns m (directConnections conns nodeId)
        (statusSingleton node.status) [nodeId]).1 := by
    unfold calculateStatusSummary
    rw [hm]
    simp [calculateStatusSummaryFuel, hfind]
  constructor
  · intro hleaf
    rw [hunfold, hleaf]
    simp [summaryChildrenFuel]
  · rw [hunfold]
    exact summaryChildren_le_result nodes conns m
      (directConnections conns nodeId) (statusSingleton node.status) [nodeId]

/-- Witness for the amended C2: the leaf `B` of the counterexample graph
summarizes to exactly its own `pending` singleton, and the internal node
`A`'s own `success` singleton is contained in its summary. -/
theorem calculateStatusSummary_leaf_singleton_witness :
    calculateStatusSummary
        [⟨"A", "a", ⟨0, 0⟩, .success, some true⟩,
          ⟨"B", "b", ⟨1, 0⟩, .pending, some false⟩]
        [] "B" = statusSingleton .pending ∧
    StatusSummary.le (statusSingleton NodeStatus.success)
      (calculateStatusSummary
        [⟨"A", "a", ⟨0, 0⟩, .success, some true⟩,
          ⟨"B", "b", ⟨1, 0⟩, .pending, some false⟩]
        [⟨"A-B", "A", "B"⟩] "A") := by
  constructor
  · exact (calculateStatusSummary_leaf_singleton_and_self_counted
      [⟨"A", "a", ⟨0, 0⟩, .success, some true⟩,
        ⟨"B", "b", ⟨1, 0⟩, .pending, some false⟩]
      [] "B" ⟨"B", "b", ⟨1, 0⟩, .pending, some false⟩ (by decide)).1 (by decide)
  · exact (calculateStatusSummary_leaf_singleton_and_self_counted
      [⟨"A", "a", ⟨0, 0⟩, .success, some true⟩,
        ⟨"B", "b", ⟨1, 0⟩, .pending, some false⟩]
      [⟨"A-B", "A", "B"⟩] "A" ⟨"A", "a", ⟨0, 0⟩, .success, some true⟩
      (by decide)).2

/-- C8 counterexample: for a root node with an empty title,
`getNodeSize` takes the `!normalizedTitle` branch, whose width
`max(minWidth, baseWidth)` is *not* clamped above: with 100 connections
the width is 2180, far beyond the 400 the function itself uses as the
root `maxWidth` — and no fixed upper bound on root widths exists at all,
so the box is not clamped to any `[min, max]` range. -/
theorem getNodeSize_width_not_clamped_counterexample :
    (getNodeSize ⟨"r", "", ⟨0, 0⟩, .pending, some true⟩ 100 none).width =
      2180 ∧
    ¬ ∃ bound : ℚ, ∀ cnt : ℕ,
        (getNodeSize ⟨"r", "", ⟨0, 0⟩, .pending, some true⟩ cnt none).width ≤
          bound := by
  have hval : ∀ cnt : ℕ,
      (getNodeSize ⟨"r", "", ⟨0, 0⟩, .pending, some true⟩ cnt none).width =
        max 200 (max 200 (180 + (cnt : ℚ) * 20)) := by
    intro cnt
    simp [getNodeSize, isRootNode, jsTrim]
  constructor
  · rw [hval]
    norm_num
  · rintro ⟨bound, hbound⟩
    set cnt : ℕ := (⌈bound⌉.toNat + 1)
    have h1 : bound ≤ ((⌈bound⌉.toNat : ℤ) : ℚ) := by
      calc bound ≤ (⌈bound⌉ : ℚ) := Int.le_ceil bound
        _ ≤ ((⌈bound⌉.toNat : ℤ) : ℚ) := by
            exact_mod_cast Int.self_le_toNat ⌈bound⌉
    have h2 : (cnt : ℚ) = (⌈bound⌉.toNat : ℚ) + 1 := by
      simp [cnt]
    have h3 : bound < 180 + (cnt : ℚ) * 20 := by
      have ht : (0 : ℚ) ≤ (⌈bound⌉.toNat : ℚ) := by positivity
      have h1' : bound ≤ (⌈bound⌉.toNat : ℚ) := by exact_mod_cast h1
      rw [h2]
      nlinarith
    have h4 := hbound cnt
    rw [hval cnt] at h4
    have h5 : 180 + (cnt : ℚ) * 20 ≤ max 200 (max 200 (180 + (cnt : ℚ) * 20)) :=
      (le_max_right _ _).trans (le_max_right _ _)
    linarith

/-- C8 as amended: when the effective (possibly overridden) title trims to
a non-empty string, the width is clamped to the root-dependent
`[minWidth, maxWidth]` range (`[200, 400]` for root nodes, `[184, 320]`
otherwise) and the height is bounded *below* by the root-dependent
minimum (160 / 150) — but neither the height nor the empty-title width
has an upper clamp. -/
theorem getNodeSize_nonempty_title_bounds
    (node : TodoNode) (connectedCount : ℕ) (titleOverride : Option String)
    (h : jsTrim (titleOverride.getD node.title) ≠ "") :
    ((if isRootNode node then (200 : ℚ) else 184) ≤
      (getNodeSize node connectedCount titleOverride).width) ∧
    ((getNodeSize node connectedCount titleOverride).width ≤
      if isRootNode node then (400 : ℚ) else 320) ∧
    ((if isRootNode node then (160 : ℚ) else 150) ≤
      (getNodeSize node connectedCount titleOverride).height) := by
  rw [getNodeSize]
  simp only [if_neg h]
  refine ⟨le_max_left _ _, ?_, le_max_left _ _⟩
  apply max_le
  · cases hroot : isRootNode node <;> simp [hroot] <;> norm_num
  · exact min_le_left _ _

/-- Witness for the amended C8 at concrete inputs: a non-root node with a
long multi-word title has width in `[184, 320]` and height at least
150. -/
theorem getNodeSize_nonempty_title_bounds_witness :
    (184 : ℚ) ≤
      (getNodeSize ⟨"n", "a very long multi word title indeed", ⟨0, 0⟩,
        .pending, some false⟩ 3 none).width ∧
    (getNodeSize ⟨"n", "a very long multi word title indeed", ⟨0, 0⟩,
        .pending, some false⟩ 3 none).width ≤ 320 ∧
    (150 : ℚ) ≤
      (getNodeSize ⟨"n", "a very long multi word title indeed", ⟨0, 0⟩,
        .pending, some false⟩ 3 none).height := by
  have h := getNodeSize_nonempty_title_bounds
    ⟨"n", "a very long multi word title indeed", ⟨0, 0⟩, .pending, some false⟩
    3 none (by decide)
  simp only [isRootNode] at h
  exact ⟨by simpa using h.1, by simpa using h.2.1, by simpa using h.2.2⟩

/-- If both endpoint nodes exist, sit at the same position and get the
same computed size, the center distance of `renderConnections` is zero
(and the source divides by it). -/
theorem connectionCenterDistanceSq_zero_of_same_center
    (nodes : List TodoNode) (conns : List Connection) (conn : Connection)
    (s t : TodoNode)
    (hs : nodes.find? (fun n => n.id == conn.sourceId) = some s)
    (ht : nodes.find? (fun n => n.id == conn.targetId) = some t)
    (hpos : s.position = t.position)
    (hsize : getNodeSizeBrainMap s (connectedCountOf conns s.id) =
      getNodeSizeBrainMap t (connectedCountOf conns t.id)) :
    connectionCenterDistanceSq nodes conns conn = 0 := by
  unfold connectionCenterDistanceSq
  rw [hs, ht]
  simp only
  rw [hpos, hsize]
  ring_nf

/-- C9 failing input: two existing nodes at the identical position
`(100, 100)` with identical sizing inputs, joined by a connection.  The
claim (and §7 of the spec) requires the draw to be skipped when the
center distance is zero, but the code's only skip condition is a missing
node: the connection is still drawn (`connectionDrawn = true`) while the
center distance is `0`, so `renderConnections` divides `dx` and `dy` by
`distance = 0` and emits `NaN` line endpoints. -/
theorem renderConnections_zero_distance_drawn :
    connectionDrawn
        [⟨"A", "x", ⟨100, 100⟩, .pending, some false⟩,
          ⟨"B", "x", ⟨100, 100⟩, .pending, some false⟩]
        ⟨"A-B", "A", "B"⟩ = true ∧
    connectionCenterDistanceSq
        [⟨"A", "x", ⟨100, 100⟩, .pending, some false⟩,
          ⟨"B", "x", ⟨100, 100⟩, .pending, some false⟩]
        [⟨"A-B", "A", "B"⟩] ⟨"A-B", "A", "B"⟩ = 0 := by
  constructor
  · rfl
  · exact connectionCenterDistanceSq_zero_of_same_center _ _ _
      ⟨"A", "x", ⟨100, 100⟩, .pending, some false⟩
      ⟨"B", "x", ⟨100, 100⟩, .pending, some false⟩
      rfl rfl rfl rfl

/-- The hydration flag after a trace is exactly
`hydratedSinceSwitch`. -/
theorem runEvents_hydrated (events : List SyncEvent) :
    ∀ s : SyncState,
      (runEvents s events).hydrated = hydratedSinceSwitch s.hydrated events := by
  induction events with
  | nil => intro s; rfl
  | cons e rest ih =>
      intro s
      have step : (applyEvent s e).hydrated =
          (match e with
            | .switchMap _ => false
            | .hydrate _ _ => true
            | .mutate _ _ => s.hydrated
            | .save => s.hydrated) := by
        cases e with
        | switchMap newId => rfl
        | hydrate nowId freshRoot => rfl
        | mutate nodes conns => rfl
        | save =>
            by_cases h : s.hydrated <;> simp [applyEvent, h]
      show (runEvents (applyEvent s e) rest).hydrated =
        hydratedSinceSwitch s.hydrated (e :: rest)
      rw [ih (applyEvent s e), step]
      cases e <;> rfl

/-- C1: the Sync Controller never writes the store before the current
identifier's hydration has completed.  Starting from any un-hydrated
state, (a) after a trace with no completed hydration since its last
map-id switch, a save effect leaves the *entire* persisted store (every
map id's node and connection entries) unchanged — in particular,
switching the map id before the new id's hydration completes cannot
overwrite the previous id's persisted data with the still-loading state —
and (b) switching the map id always clears the hydrated flag. -/
theorem useBrainMapStorage_hydration_guard
    (s : SyncState) (events : List SyncEvent)
    (hinit : s.hydrated = false) :
    (hydratedSinceSwitch false events = false →
      (runEvents s (events ++ [SyncEvent.save])).storeNodes =
          (runEvents s events).storeNodes ∧
        (runEvents s (events ++ [SyncEvent.save])).storeConns =
          (runEvents s events).storeConns) ∧
    (∀ newId : String,
      (runEvents s (events ++ [SyncEvent.switchMap newId])).hydrated =
        false) := by
  constructor
  · intro hguard
    have hhyd : (runEvents s events).hydrated = false := by
      rw [runEvents_hydrated events s, hinit]
      exact hguard
    have happ : runEvents s (events ++ [SyncEvent.save]) =
        applyEvent (runEvents s events) SyncEvent.save := by
      simp [runEvents, List.foldl_append]
    rw [happ]
    simp [applyEvent, hhyd]
  · intro newId
    have happ : runEvents s (events ++ [SyncEvent.switchMap newId]) =
        applyEvent (runEvents s events) (SyncEvent.switchMap newId) := by
      simp [runEvents, List.foldl_append]
    rw [happ]
    rfl

/-- Witness for C1 on the hydration-guard scenario: map `"A"`'s data sits
in the store; the trace hydrates `"A"`, then switches to `"B"` (whose
hydration has not completed) and clears the in-memory graph.  A save at
that point changes neither store — `"A"`'s persisted data survives — and
the switch has cleared the hydrated flag. -/
theorem useBrainMapStorage_hydration_guard_witness :
    ((runEvents
        ⟨"A", false, [], [], [("A", [⟨some "a1", some "My Tasks", some ⟨0, 0⟩,
          some "pending", none, some true⟩])], [("A", [])]⟩
        ([SyncEvent.hydrate "now" ⟨"now", "My Tasks", ⟨0, 0⟩, .pending,
            some true⟩,
          SyncEvent.switchMap "B",
          SyncEvent.mutate [] []] ++ [SyncEvent.save])).storeNodes =
      (runEvents
        ⟨"A", false, [], [], [("A", [⟨some "a1", some "My Tasks", some ⟨0, 0⟩,
          some "pending", none, some true⟩])], [("A", [])]⟩
        [SyncEvent.hydrate "now" ⟨"now", "My Tasks", ⟨0, 0⟩, .pending,
            some true⟩,
          SyncEvent.switchMap "B",
          SyncEvent.mutate [] []]).storeNodes ∧
      (runEvents
        ⟨"A", false, [], [], [("A", [⟨some "a1", some "My Tasks", some ⟨0, 0⟩,
          some "pending", none, some true⟩])], [("A", [])]⟩
        ([SyncEvent.hydrate "now" ⟨"now", "My Tasks", ⟨0, 0⟩, .pending,
            some true⟩,
          SyncEvent.switchMap "B",
          SyncEvent.mutate [] []] ++ [SyncEvent.save])).storeConns =
      (runEvents
        ⟨"A", false, [], [], [("A", [⟨some "a1", some "My Tasks", some ⟨0, 0⟩,
          some "pending", none, some true⟩])], [("A", [])]⟩
        [SyncEvent.hydrate "now" ⟨"now", "My Tasks", ⟨0, 0⟩, .pending,
            some true⟩,
          SyncEvent.switchMap "B",
          SyncEvent.mutate [] []]).storeConns) ∧
    (runEvents
        ⟨"A", false, [], [], [("A", [⟨some "a1", some "My Tasks", some ⟨0, 0⟩,
          some "pending", none, some true⟩])], [("A", [])]⟩
        ([SyncEvent.hydrate "now" ⟨"now", "My Tasks", ⟨0, 0⟩, .pending,
            some true⟩] ++ [SyncEvent.switchMap "B"])).hydrated = false := by
  have h := useBrainMapStorage_hydration_guard
    ⟨"A", false, [], [], [("A", [⟨some "a1", some "My Tasks", some ⟨0, 0⟩,
      some "pending", none, some true⟩])], [("A", [])]⟩
    [SyncEvent.hydrate "now" ⟨"now", "My Tasks", ⟨0, 0⟩, .pending, some true⟩,
      SyncEvent.switchMap "B",
      SyncEvent.mutate [] []] rfl
  have h' := useBrainMapStorage_hydration_guard
    ⟨"A", false, [], [], [("A", [⟨some "a1", some "My Tasks", some ⟨0, 0⟩,
      some "pending", none, some true⟩])], [("A", [])]⟩
    [SyncEvent.hydrate "now" ⟨"now", "My Tasks", ⟨0, 0⟩, .pending, some true⟩]
    rfl
  exact ⟨h.1 rfl, h'.2 "B"⟩

end MindTodo

